import Mathlib

/-!
Shallow embedding of the textedit workspace core (editor.py, find_replace.py,
tab_widget.py, split_container.py) and proofs of the specification claims.

Text is modelled as `List Char`; the Qt text-buffer search primitive
(QTextDocument.find) is an external collaborator and is modelled from the
spec's description of the TextBuffer capability.
-/

namespace TextEdit

/-! ## Search primitive, modelled from the spec

The repository never implements substring search itself: `find_replace.py`
calls `QTextDocument.find(text, cursor, flags)`.  The spec describes the
TextBuffer collaborator's `find(query, from, flags) -> Option<span>` and the
whole-word acceptance rule, so the primitive below is modelled from those
words: a linear scan returning the first occurrence at or after the start
offset, with optional case folding and whole-word boundary checks. -/

/-- Modelled from the spec: a word character is alphanumeric or underscore
(glossary: a whole-word match is not adjacent to an alphanumeric/underscore
character on either side). -/
def isWordChar (c : Char) : Bool := c.isAlphanum || c = '_'

/-- Case folding applied to both sides of a comparison when the search is
case-insensitive. -/
def normChar (caseSensitive : Bool) (c : Char) : Char :=
  if caseSensitive then c else c.toLower

/-- Modelled from the spec: the query `q` occurs in `t` at offset `i`
(compared under the case-sensitivity flag). -/
def matchesAt (t q : List Char) (caseSensitive : Bool) (i : Nat) : Bool :=
  decide (i + q.length ≤ t.length) &&
    ((t.drop i).take q.length).map (normChar caseSensitive) ==
      q.map (normChar caseSensitive)

/-- Modelled from the spec: the characters immediately before and after the
candidate occurrence (if any) are not alphanumeric/underscore. -/
def wordBoundaryAt (t q : List Char) (i : Nat) : Bool :=
  (decide (i = 0) || !(isWordChar (t.getD (i - 1) ' '))) &&
    (decide (i + q.length = t.length) || !(isWordChar (t.getD (i + q.length) ' ')))

/-- Modelled from the spec: a candidate occurrence is accepted as a match;
when whole-word matching is enabled the boundary rule must also hold. -/
def acceptAt (t q : List Char) (caseSensitive wholeWord : Bool) (i : Nat) : Bool :=
  matchesAt t q caseSensitive i && (!wholeWord || wordBoundaryAt t q i)

/-- Linear scan for the first accepted match at offset `i` or later; `fuel`
bounds the number of candidate offsets inspected (`t.length + 1` always
suffices). -/
def findFromAux (t q : List Char) (caseSensitive wholeWord : Bool) :
    Nat → Nat → Option Nat
  | 0, _ => none
  | fuel + 1, i =>
    if i + q.length ≤ t.length then
      if acceptAt t q caseSensitive wholeWord i then some i
      else findFromAux t q caseSensitive wholeWord fuel (i + 1)
    else none

/-- Modelled from the spec: `find(query, from, flags)` of the TextBuffer
capability — first match at offset `i` or later, or `none`. -/
def findFrom (t q : List Char) (caseSensitive wholeWord : Bool) (i : Nat) :
    Option Nat :=
  findFromAux t q caseSensitive wholeWord (t.length + 1) i

theorem acceptAt_oob (t q : List Char) (cs ww : Bool) (i : Nat)
    (h : t.length < i + q.length) : acceptAt t q cs ww i = false := by
  simp [acceptAt, matchesAt, Nat.not_le.mpr h]

theorem findFromAux_some (t q : List Char) (cs ww : Bool) :
    ∀ fuel i j, findFromAux t q cs ww fuel i = some j →
      i ≤ j ∧ acceptAt t q cs ww j = true ∧ j + q.length ≤ t.length := by
  intro fuel
  induction fuel with
  | zero => intro i j h; simp [findFromAux] at h
  | succ fuel ih =>
    intro i j h
    by_cases h1 : i + q.length ≤ t.length
    · by_cases h2 : acceptAt t q cs ww i = true
      · simp [findFromAux, h1, h2] at h
        exact h ▸ ⟨Nat.le_refl i, h2, h ▸ h1⟩
      · simp [findFromAux, h1, h2] at h
        obtain ⟨hij, hacc, hlen⟩ := ih (i + 1) j h
        exact ⟨Nat.le_of_succ_le hij, hacc, hlen⟩
    · simp [findFromAux, h1] at h

theorem findFromAux_none (t q : List Char) (cs ww : Bool) :
    ∀ fuel i, t.length + 1 ≤ fuel + i → findFromAux t q cs ww fuel i = none →
      ∀ j, i ≤ j → acceptAt t q cs ww j = false := by
  intro fuel
  induction fuel with
  | zero =>
    intro i hfi _ j hij
    exact acceptAt_oob t q cs ww j (by omega)
  | succ fuel ih =>
    intro i hfi hnone j hij
    by_cases h1 : i + q.length ≤ t.length
    · by_cases h2 : acceptAt t q cs ww i = true
      · simp [findFromAux, h1, h2] at hnone
      · simp [findFromAux, h1, h2] at hnone
        rcases Nat.eq_or_lt_of_le hij with h | h
        · subst h; simpa using h2
        · exact ih (i + 1) (by omega) hnone j h
    · exact acceptAt_oob t q cs ww j (by omega)

theorem findFrom_some (t q : List Char) (cs ww : Bool) (i j : Nat)
    (h : findFrom t q cs ww i = some j) :
    i ≤ j ∧ acceptAt t q cs ww j = true ∧ j + q.length ≤ t.length :=
  findFromAux_some t q cs ww _ i j h

theorem findFrom_none (t q : List Char) (cs ww : Bool) (i : Nat)
    (h : findFrom t q cs ww i = none) :
    ∀ j, i ≤ j → acceptAt t q cs ww j = false :=
  findFromAux_none t q cs ww _ i (by omega) h

theorem findFrom_zero_none_iff (t q : List Char) (cs ww : Bool) :
    findFrom t q cs ww 0 = none ↔ ∀ j, acceptAt t q cs ww j = false := by
  constructor
  · intro h j
    exact findFrom_none t q cs ww 0 h j (Nat.zero_le j)
  · intro h
    cases hf : findFrom t q cs ww 0 with
    | none => rfl
    | some j =>
      obtain ⟨_, hacc, _⟩ := findFrom_some t q cs ww 0 j hf
      rw [h j] at hacc
      exact absurd hacc (by simp)

theorem findFrom_oob (t q : List Char) (cs ww : Bool) (i : Nat)
    (h : t.length < i + q.length) : findFrom t q cs ww i = none := by
  simp [findFrom, findFromAux, Nat.not_le.mpr h]

/-- Modelled from the spec: backward `find` with the FindBackward flag — the
last accepted match that ends at or before the start offset, or `none`. -/
def findBack (t q : List Char) (caseSensitive wholeWord : Bool) (start : Nat) :
    Option Nat :=
  (List.range (start + 1)).reverse.find?
    (fun i => decide (i + q.length ≤ start) && acceptAt t q caseSensitive wholeWord i)

/-! ## FindReplaceWidget (find_replace.py)

`_get_find_flags` translates the two checkboxes into the case-sensitivity and
whole-word flags passed to every search; the widget state below mirrors the
fields of `FindReplaceWidget` that the search logic reads and writes.  The
editor it is bound to is reduced to its document text and its text cursor
(anchor and position; Qt forward searches start at the selection end,
backward searches at the selection start). -/

structure EditorView where
  text : List Char
  anchor : Nat
  pos : Nat
deriving DecidableEq, Repr

structure FindReplaceWidget where
  editor : Option EditorView
  find_input : List Char
  replace_input : List Char
  case_sensitive : Bool
  whole_word : Bool
  last_match_position : Int
  match_label : Option Nat
deriving DecidableEq, Repr

/-- Forward searches start at the cursor's selection end. -/
def EditorView.selEnd (ed : EditorView) : Nat := max ed.anchor ed.pos

/-- Backward searches start at the cursor's selection start. -/
def EditorView.selStart (ed : EditorView) : Nat := min ed.anchor ed.pos

/-- The number of non-overlapping matches counted by the
`_update_match_count` loop: repeated `document.find` calls, each resuming at
the end of the previous match.  `fuel` bounds the iterations
(`t.length + 1` always suffices for a non-empty query). -/
def countMatchesAux (t q : List Char) (cs ww : Bool) : Nat → Nat → Nat
  | 0, _ => 0
  | fuel + 1, i =>
    match findFrom t q cs ww i with
    | none => 0
    | some j => countMatchesAux t q cs ww fuel (j + q.length) + 1

def countMatches (t q : List Char) (cs ww : Bool) : Nat :=
  countMatchesAux t q cs ww (t.length + 1) 0

/-- Embeds `FindReplaceWidget._update_match_count`: recompute the match-count label
(empty when unbound or the query is empty). -/
def update_match_count (w : FindReplaceWidget) : FindReplaceWidget :=
  match w.editor with
  | none => { w with match_label := none }
  | some ed =>
    if w.find_input.isEmpty then { w with match_label := none }
    else
      { w with
          match_label :=
            some (countMatches ed.text w.find_input w.case_sensitive w.whole_word) }

/-- Embeds `FindReplaceWidget.find_next`: search forward from the cursor, wrapping
to the document start when nothing is found up to the end; on success select
the match and record `found.position()` (the match end, for a forward
search). -/
def find_next (w : FindReplaceWidget) : FindReplaceWidget × Bool :=
  match w.editor with
  | none => (w, false)
  | some ed =>
    if w.find_input.isEmpty then (w, false)
    else
      let q := w.find_input
      let found :=
        (findFrom ed.text q w.case_sensitive w.whole_word ed.selEnd).or
          (findFrom ed.text q w.case_sensitive w.whole_word 0)
      match found with
      | some i =>
        ({ w with
            editor := some { ed with anchor := i, pos := i + q.length },
            last_match_position := ((i + q.length : Nat) : Int) }, true)
      | none => (w, false)

/-- Embeds `FindReplaceWidget.find_previous`: search backward from the cursor,
wrapping to the document end when nothing is found before it; on success
select the match and record `found.position()` (the match start, for a
backward search). -/
def find_previous (w : FindReplaceWidget) : FindReplaceWidget × Bool :=
  match w.editor with
  | none => (w, false)
  | some ed =>
    if w.find_input.isEmpty then (w, false)
    else
      let q := w.find_input
      let found :=
        (findBack ed.text q w.case_sensitive w.whole_word ed.selStart).or
          (findBack ed.text q w.case_sensitive w.whole_word ed.text.length)
      match found with
      | some i =>
        ({ w with
            editor := some { ed with anchor := i + q.length, pos := i },
            last_match_position := ((i : Nat) : Int) }, true)
      | none => (w, false)

/-- One replacement: splice the replacement text over the match at `i`. -/
def spliceAt (t r : List Char) (i len : Nat) : List Char :=
  t.take i ++ r ++ t.drop (i + len)

/-- The `replace_all` loop: find from the current scan position, splice the
replacement in, and resume immediately after the replacement's end offset
(`found.insertText(replacement)` leaves the cursor there).  `fuel` bounds
the iterations (`t.length + 1` always suffices for a non-empty query). -/
def replace_allAux (q r : List Char) (cs ww : Bool) :
    Nat → List Char → Nat → Nat → List Char × Nat
  | 0, t, _, count => (t, count)
  | fuel + 1, t, i, count =>
    match findFrom t q cs ww i with
    | none => (t, count)
    | some j =>
      replace_allAux q r cs ww fuel (spliceAt t r j q.length) (j + r.length) (count + 1)

/-- Embeds `FindReplaceWidget.replace_all`: scan from the document start replacing
every match; the edit is wrapped in `beginEditBlock`/`endEditBlock` in the
source (one undo step), which has no observable effect here; the match-count
label is refreshed afterwards. -/
def replace_all (w : FindReplaceWidget) : FindReplaceWidget × Nat :=
  match w.editor with
  | none => (w, 0)
  | some ed =>
    if w.find_input.isEmpty then (w, 0)
    else
      let (t', count) :=
        replace_allAux w.find_input w.replace_input w.case_sensitive w.whole_word
          (ed.text.length + 1) ed.text 0 0
      (update_match_count { w with editor := some { ed with text := t' } }, count)

/-- The document text seen through the widget, `none` when unbound. -/
def editorText (w : FindReplaceWidget) : Option (List Char) :=
  w.editor.map EditorView.text

theorem spliceAt_length (t r : List Char) (j len : Nat) (h : j + len ≤ t.length) :
    (spliceAt t r j len).length = t.length + r.length - len := by
  simp only [spliceAt, List.length_append, List.length_take, List.length_drop]
  omega

/-- Fuel irrelevance for the replace-all loop: with a non-empty query, any
fuel of at least `t.length + 1 - i` candidate steps yields the same result,
so the loop terminates — every replacement consumes at least one character
of the not-yet-scanned suffix, even when the replacement text contains the
query. -/
theorem replace_allAux_fuel (q r : List Char) (cs ww : Bool) (hq : q ≠ []) :
    ∀ (f1 f2 : Nat) (t : List Char) (i count : Nat),
      t.length + 1 ≤ f1 + i → t.length + 1 ≤ f2 + i →
      replace_allAux q r cs ww f1 t i count = replace_allAux q r cs ww f2 t i count := by
  have hq1 : 1 ≤ q.length := List.length_pos.mpr hq
  intro f1
  induction f1 with
  | zero =>
    intro f2 t i count h1 h2
    cases f2 with
    | zero => rfl
    | succ f2 =>
      have hoob : findFrom t q cs ww i = none := findFrom_oob t q cs ww i (by omega)
      simp [replace_allAux, hoob]
  | succ f1 ih =>
    intro f2 t i count h1 h2
    cases f2 with
    | zero =>
      have hoob : findFrom t q cs ww i = none := findFrom_oob t q cs ww i (by omega)
      simp [replace_allAux, hoob]
    | succ f2 =>
      simp only [replace_allAux]
      cases hf : findFrom t q cs ww i with
      | none => rfl
      | some j =>
        obtain ⟨hij, _, hjq⟩ := findFrom_some t q cs ww i j hf
        have hlen : (spliceAt t r j q.length).length = t.length + r.length - q.length :=
          spliceAt_length t r j q.length hjq
        exact ih f2 (spliceAt t r j q.length) (j + r.length) (count + 1)
          (by omega) (by omega)

/-! ## TextEditor documents and file I/O (editor.py)

`TextEditor` carries the buffer text, the optional file path and the
modification flag.  The file system is an external collaborator: reading a
path either yields text, raises an OS-level error (`IOError`/`OSError`:
not found, permission, ...) or raises a `UnicodeDecodeError` while decoding;
writing to a path either succeeds or raises an OS-level error.  A result of
`none` from an operation models an exception escaping it uncaught. -/

structure Editor where
  text : List Char
  file_path : Option String
  modified : Bool
deriving DecidableEq, Repr

inductive ReadResult where
  | ok (s : List Char)
  | osError
  | decodeError
deriving DecidableEq, Repr

structure FileStore where
  read : String → ReadResult
  writeOk : String → Bool

/-- Writing buffer contents to a path: on success subsequent reads of that
path yield the written text; on failure the store is unchanged. -/
def FileStore.write (fs : FileStore) (path : String) (content : List Char) :
    Option FileStore :=
  if fs.writeOk path then
    some { fs with read := fun p => if p = path then .ok content else fs.read p }
  else none

/-- Embeds `TextEditor.load_file`.  The source wraps the read in
`try: ... except (IOError, OSError): return False`; a `UnicodeDecodeError`
raised while decoding is not among the caught exception types, so it escapes
(`none`).  All three failure paths raise before `setPlainText` runs, so the
editor state is untouched by a failed read. -/
def load_file (fs : FileStore) (ed : Editor) (path : String) :
    Option (Editor × Bool) :=
  match fs.read path with
  | .ok s => some ({ text := s, file_path := some path, modified := false }, true)
  | .osError => some (ed, false)
  | .decodeError => none

/-- Embeds `TextEditor.save_file`: the explicit argument takes precedence over the
stored path; with neither, the save fails; on a successful write the path is
updated and the modified flag cleared. -/
def save_file (fs : FileStore) (ed : Editor) (path? : Option String) :
    FileStore × Editor × Bool :=
  match path?.or ed.file_path with
  | none => (fs, ed, false)
  | some path =>
    match fs.write path ed.text with
    | some fs' => (fs', { ed with file_path := some path, modified := false }, true)
    | none => (fs, ed, false)

/-- A freshly created, untitled, unmodified editor. -/
def freshEditor : Editor := { text := [], file_path := none, modified := false }

/-! ## EditorTabWidget (tab_widget.py)

A tab group is the ordered list of its editors plus the current index.  The
confirmation prompt (`QMessageBox.question`) and the save-file dialog
(`QFileDialog.getSaveFileName`) are external collaborators, modelled as an
oracle supplying the user's answers. -/

structure TabGroup where
  docs : List Editor
  current : Nat
deriving DecidableEq, Repr

inductive Decision where
  | save
  | discard
  | cancel
deriving DecidableEq, Repr

structure Oracle where
  ask : Editor → Decision
  pickSave : Option String

/-- Replace the editor stored at index `i`. -/
def set_doc (g : TabGroup) (i : Nat) (ed : Editor) : TabGroup :=
  { g with docs := g.docs.set i ed }

/-- Embeds `removeTab(i)`: drop the editor at index `i`; the current index is
clamped into the remaining range (QTabWidget keeps a valid selection). -/
def remove_tab (g : TabGroup) (i : Nat) : TabGroup :=
  let docs' := g.docs.eraseIdx i
  { docs := docs', current := min g.current (docs'.length - 1) }

/-- Embeds `EditorTabWidget.save_current_as`: ask the dialog for a path; without
one the save is abandoned; otherwise save the current editor to it. -/
def save_current_as (o : Oracle) (fs : FileStore) (g : TabGroup) :
    FileStore × TabGroup × Bool :=
  match g.docs.get? g.current with
  | none => (fs, g, false)
  | some ed =>
    match o.pickSave with
    | none => (fs, g, false)
    | some path =>
      let (fs', ed', ok) := save_file fs ed (some path)
      if ok then (fs', set_doc g g.current ed', true) else (fs', g, false)

/-- Embeds `EditorTabWidget.save_current`: save the current editor to its stored
path, or fall back to save-as when it has none. -/
def save_current (o : Oracle) (fs : FileStore) (g : TabGroup) :
    FileStore × TabGroup × Bool :=
  match g.docs.get? g.current with
  | none => (fs, g, false)
  | some ed =>
    match ed.file_path with
    | some _ =>
      let (fs', ed', ok) := save_file fs ed none
      if ok then (fs', set_doc g g.current ed', true) else (fs', g, false)
    | none => save_current_as o fs g

/-- Embeds `EditorTabWidget.close_tab`: an unmodified editor is removed outright; a
modified one first asks Save/Discard/Cancel — Cancel aborts, Save makes the
tab current and aborts if `save_current` fails, Discard proceeds.  The
returned flag is the source's boolean result (`False` aborts an enclosing
batch close). -/
def close_tab (o : Oracle) (fs : FileStore) (g : TabGroup) (index : Nat) :
    FileStore × TabGroup × Bool :=
  match g.docs.get? index with
  | none => (fs, g, false)
  | some ed =>
    if ed.modified then
      match o.ask ed with
      | .cancel => (fs, g, false)
      | .save =>
        let g1 := { g with current := index }
        let (fs', g2, ok) := save_current o fs g1
        if ok then (fs', remove_tab g2 index, true) else (fs', g2, false)
      | .discard => (fs, remove_tab g index, true)
    else (fs, remove_tab g index, true)

/-- The `while` loop of `EditorTabWidget.close_all_tabs`: keep closing the
front tab until none remain or a close reports failure.  `fuel` bounds the
iterations; each successful front close removes exactly one tab, so the
initial tab count suffices. -/
def close_allAux (o : Oracle) : Nat → FileStore → TabGroup → FileStore × TabGroup × Bool
  | 0, fs, g => (fs, g, true)
  | fuel + 1, fs, g =>
    if g.docs.isEmpty then (fs, g, true)
    else
      let (fs', g', ok) := close_tab o fs g 0
      if ok then close_allAux o fuel fs' g' else (fs', g', false)

/-- Embeds `EditorTabWidget.close_all_tabs`: close tabs front to back, stopping at
the first failed close. -/
def close_all_tabs (o : Oracle) (fs : FileStore) (g : TabGroup) :
    FileStore × TabGroup × Bool :=
  close_allAux o g.docs.length fs g

/-- Whether `close_tab` would succeed on this editor: an unmodified editor
always closes; a modified one closes when the user answers Discard, or
answers Save and the save succeeds (to the stored path, or to the path the
save dialog yields when there is none). -/
def close_ok (o : Oracle) (fs : FileStore) (ed : Editor) : Bool :=
  if ed.modified then
    match o.ask ed with
    | .cancel => false
    | .discard => true
    | .save =>
      match ed.file_path with
      | some p => fs.writeOk p
      | none =>
        match o.pickSave with
        | none => false
        | some p => fs.writeOk p
  else true

/-! ## SplitContainer (split_container.py)

The pane tree is the widget tree under the fixed `root_splitter`: a node is
either an `EditorTabWidget` (a leaf pane, identified by its Qt object
identity, modelled as a numeric id) or a nested `QSplitter` with an
orientation and an ordered child list.  The container state is the root
splitter's child list plus the `_closing` flag that suppresses empty-group
handling during a close-all sweep. -/

structure Pane where
  id : Nat
  group : TabGroup
deriving DecidableEq, Repr

inductive PaneNode where
  | leaf : Pane → PaneNode
  | split : Bool → List PaneNode → PaneNode

structure SplitContainer where
  rootChildren : List PaneNode
  closing : Bool

mutual

/-- The pane count `findChildren(EditorTabWidget)` reports for one node. -/
def countLeaves : PaneNode → Nat
  | .leaf _ => 1
  | .split _ cs => countLeavesList cs

/-- The pane count over a child list. -/
def countLeavesList : List PaneNode → Nat
  | [] => 0
  | t :: ts => countLeaves t + countLeavesList ts

end

mutual

/-- Ids of all panes in a node. -/
def leafIds : PaneNode → List Nat
  | .leaf p => [p.id]
  | .split _ cs => leafIdsList cs

/-- Ids of all panes in a child list. -/
def leafIdsList : List PaneNode → List Nat
  | [] => []
  | t :: ts => leafIds t ++ leafIdsList ts

end

/-- Embeds `tabs.setParent(None)`: detach the pane with the given id wherever it
sits in the tree. -/
def removeLeafList (i : Nat) : List PaneNode → List PaneNode
  | [] => []
  | .leaf p :: rest =>
    if p.id = i then removeLeafList i rest
    else .leaf p :: removeLeafList i rest
  | .split o cs :: rest => .split o (removeLeafList i cs) :: removeLeafList i rest

/-- Apply `f` to the tab group of the pane with the given id. -/
def mapLeafList (i : Nat) (f : TabGroup → TabGroup) : List PaneNode → List PaneNode
  | [] => []
  | .leaf p :: rest =>
    (if p.id = i then PaneNode.leaf { p with group := f p.group }
     else PaneNode.leaf p) :: mapLeafList i f rest
  | .split o cs :: rest => .split o (mapLeafList i f cs) :: mapLeafList i f rest

/-- The tab group of the pane with the given id, when present. -/
def getGroupList (i : Nat) : List PaneNode → Option TabGroup
  | [] => none
  | .leaf p :: rest => if p.id = i then some p.group else getGroupList i rest
  | .split _ cs :: rest =>
    match getGroupList i cs with
    | some g => some g
    | none => getGroupList i rest

/-- Embeds `SplitContainer._cleanup_empty_splitters` as a pure bottom-up rewrite of
a splitter's child list: recursively clean each child splitter first, then
drop it if it ended up with 0 children, or replace it by its single child if
it ended up with exactly 1; leaf panes are kept as they are.  The source
walks the children in reverse purely to keep Qt indices valid while
mutating; the surviving children keep their relative order. -/
def cleanupList : List PaneNode → List PaneNode
  | [] => []
  | .leaf p :: rest => .leaf p :: cleanupList rest
  | .split o cs :: rest =>
    let cs' := cleanupList cs
    if cs'.length = 0 then cleanupList rest
    else if cs'.length = 1 then cs' ++ cleanupList rest
    else .split o cs' :: cleanupList rest

mutual

/-- No splitter below the root has fewer than two children. -/
def noDegenerate : PaneNode → Bool
  | .leaf _ => true
  | .split _ cs => decide (2 ≤ cs.length) && noDegenerateList cs

/-- Predicate `noDegenerate` over a child list. -/
def noDegenerateList : List PaneNode → Bool
  | [] => true
  | t :: ts => noDegenerate t && noDegenerateList ts

end

/-- Embeds `TabGroup.new_tab()` with no path: append a fresh untitled editor and
make it current. -/
def new_tabPure (g : TabGroup) : TabGroup :=
  { docs := g.docs ++ [freshEditor], current := g.docs.length }

/-- Embeds `SplitContainer._remove_tab_widget` restricted to its structural effect:
detach the pane and clean up the splitter tree (the active-pane fixup only
touches focus state). -/
def remove_tab_widget (c : SplitContainer) (i : Nat) : SplitContainer :=
  { c with rootChildren := cleanupList (removeLeafList i c.rootChildren) }

/-- Embeds `SplitContainer._on_all_tabs_closed`: ignored during a close-all sweep;
otherwise, when the notifying pane is the only one left it gets a fresh
empty tab, and when other panes remain it is removed from the tree. -/
def on_all_tabs_closed (c : SplitContainer) (i : Nat) : SplitContainer :=
  if c.closing then c
  else if countLeavesList c.rootChildren = 1 then
    { c with rootChildren := mapLeafList i new_tabPure c.rootChildren }
  else remove_tab_widget c i

/-! ## Structural lemmas about the pane tree -/

theorem noDegenerateList_append (a b : List PaneNode) :
    noDegenerateList (a ++ b) = (noDegenerateList a && noDegenerateList b) := by
  induction a with
  | nil => simp [noDegenerateList]
  | cons t ts ih => simp [noDegenerateList, ih, Bool.and_assoc]

theorem noDegenerateList_cleanupList : ∀ l : List PaneNode,
    noDegenerateList (cleanupList l) = true := by
  intro l
  induction l using cleanupList.induct with
  | case1 => simp [cleanupList, noDegenerateList]
  | case2 p rest ih => simp [cleanupList, noDegenerateList, noDegenerate, ih]
  | case3 o cs rest cs2 hlen ihcs ihrest =>
    have h : (cleanupList cs).length = 0 := hlen
    simp only [cleanupList]
    rw [if_pos h]
    exact ihrest
  | case4 o cs rest cs2 hne hlen ihcs ihrest =>
    have h1 : (cleanupList cs).length = 1 := hlen
    have h0 : ¬(cleanupList cs).length = 0 := by omega
    simp only [cleanupList]
    rw [if_neg h0, if_pos h1]
    obtain ⟨x, hx⟩ := List.length_eq_one.mp h1
    have hcs := ihcs
    rw [hx] at hcs ⊢
    simp [noDegenerateList] at hcs ⊢
    exact ⟨hcs, ihrest⟩
  | case5 o cs rest cs2 hne hne1 ihcs ihrest =>
    have h0 : ¬(cleanupList cs).length = 0 := hne
    have h1 : ¬(cleanupList cs).length = 1 := hne1
    simp only [cleanupList]
    rw [if_neg h0, if_neg h1]
    simp [noDegenerateList, noDegenerate, ihcs, ihrest]
    omega

theorem leafIdsList_append (a b : List PaneNode) :
    leafIdsList (a ++ b) = leafIdsList a ++ leafIdsList b := by
  induction a with
  | nil => simp [leafIdsList]
  | cons t ts ih => simp [leafIdsList, ih]

theorem mem_leafIds_cleanupList (i : Nat) : ∀ l : List PaneNode,
    i ∈ leafIdsList (cleanupList l) → i ∈ leafIdsList l := by
  intro l
  induction l using cleanupList.induct with
  | case1 => simp [cleanupList]
  | case2 p rest ih =>
    simp only [cleanupList, leafIdsList, leafIds]
    intro h
    rcases List.mem_append.mp h with h | h
    · exact List.mem_append.mpr (Or.inl h)
    · exact List.mem_append.mpr (Or.inr (ih h))
  | case3 o cs rest cs2 hlen ihcs ihrest =>
    have h : (cleanupList cs).length = 0 := hlen
    simp only [cleanupList]
    rw [if_pos h]
    intro hm
    exact List.mem_append.mpr (Or.inr (ihrest hm))
  | case4 o cs rest cs2 hne hlen ihcs ihrest =>
    have h1 : (cleanupList cs).length = 1 := hlen
    have h0 : ¬(cleanupList cs).length = 0 := by omega
    simp only [cleanupList]
    rw [if_neg h0, if_pos h1]
    intro hm
    rw [leafIdsList_append] at hm
    rcases List.mem_append.mp hm with h | h
    · refine List.mem_append.mpr (Or.inl (ihcs ?_))
      exact h
    · exact List.mem_append.mpr (Or.inr (ihrest h))
  | case5 o cs rest cs2 hne hne1 ihcs ihrest =>
    have h0 : ¬(cleanupList cs).length = 0 := hne
    have h1 : ¬(cleanupList cs).length = 1 := hne1
    simp only [cleanupList]
    rw [if_neg h0, if_neg h1]
    simp only [leafIdsList, leafIds]
    intro hm
    rcases List.mem_append.mp hm with h | h
    · exact List.mem_append.mpr (Or.inl (ihcs h))
    · exact List.mem_append.mpr (Or.inr (ihrest h))

theorem not_mem_leafIds_removeLeafList (i : Nat) : ∀ l : List PaneNode,
    i ∉ leafIdsList (removeLeafList i l) := by
  intro l
  induction l using removeLeafList.induct i with
  | case1 => simp [removeLeafList, leafIdsList]
  | case2 p rest heq ih =>
    simp only [removeLeafList]
    rw [if_pos heq]
    exact ih
  | case3 p rest hne ih =>
    simp only [removeLeafList]
    rw [if_neg hne]
    simp only [leafIdsList, leafIds]
    intro hm
    rcases List.mem_append.mp hm with h | h
    · simp at h
      exact hne h.symm
    · exact ih h
  | case4 o cs rest ihcs ihrest =>
    simp only [removeLeafList, leafIdsList, leafIds]
    intro hm
    rcases List.mem_append.mp hm with h | h
    · exact ihcs h
    · exact ihrest h

theorem countLeavesList_mapLeafList (i : Nat) (f : TabGroup → TabGroup) :
    ∀ l : List PaneNode,
      countLeavesList (mapLeafList i f l) = countLeavesList l := by
  intro l
  induction l using mapLeafList.induct i f with
  | case1 => simp [mapLeafList]
  | case2 p rest ih =>
    by_cases h : p.id = i <;>
      simp [mapLeafList, h, countLeavesList, countLeaves, ih]
  | case3 o cs rest ihcs ihrest =>
    simp [mapLeafList, countLeavesList, countLeaves, ihcs, ihrest]

theorem getGroupList_mapLeafList (i : Nat) (f : TabGroup → TabGroup) :
    ∀ l : List PaneNode,
      getGroupList i (mapLeafList i f l) = (getGroupList i l).map f := by
  intro l
  induction l using mapLeafList.induct i f with
  | case1 => simp [mapLeafList, getGroupList]
  | case2 p rest ih =>
    by_cases h : p.id = i
    · simp [mapLeafList, h, getGroupList]
    · simp [mapLeafList, h, getGroupList, ih]
  | case3 o cs rest ihcs ihrest =>
    simp only [mapLeafList, getGroupList, ihcs]
    cases hg : getGroupList i cs with
    | none => simp [ihrest]
    | some g => simp

/-! ## Lemmas about closing tabs -/

theorem save_current_fail (o : Oracle) (fs : FileStore) (g : TabGroup)
    (h : (save_current o fs g).2.2 = false) : (save_current o fs g).2.1 = g := by
  unfold save_current save_current_as at *
  cases hd : g.docs.get? g.current with
  | none => simp [hd]
  | some ed =>
    cases hp : ed.file_path with
    | some p =>
      simp only [hd, hp] at h ⊢
      rcases hs : save_file fs ed none with ⟨fs', ed', ok⟩
      simp only [hs] at h ⊢
      cases ok with
      | false => simp
      | true => simp at h
    | none =>
      simp only [hd, hp] at h ⊢
      cases hps : o.pickSave with
      | none => simp [hps]
      | some p =>
        simp only [hps] at h ⊢
        rcases hs : save_file fs ed (some p) with ⟨fs', ed', ok⟩
        simp only [hs] at h ⊢
        cases ok with
        | false => simp
        | true => simp at h

theorem save_file_writeOk (fs : FileStore) (ed : Editor) (p? : Option String) :
    (save_file fs ed p?).1.writeOk = fs.writeOk := by
  unfold save_file FileStore.write
  cases p?.or ed.file_path with
  | none => rfl
  | some p => by_cases h : fs.writeOk p = true <;> simp [h]

theorem close_ok_writeOk_congr (o : Oracle) (fs fs' : FileStore) (ed : Editor)
    (h : fs'.writeOk = fs.writeOk) : close_ok o fs' ed = close_ok o fs ed := by
  unfold close_ok
  rw [h]

/-- Full characterization of closing the front tab: the flag equals
`close_ok` of the front editor, on success exactly the front editor is
removed, on failure the tab list is untouched, and the write-capability of
the file store is unaffected either way. -/
theorem close_tab_zero (o : Oracle) (fs : FileStore) (g : TabGroup)
    (d : Editor) (rest : List Editor) (hd : g.docs = d :: rest) :
    (close_tab o fs g 0).2.2 = close_ok o fs d ∧
    (close_tab o fs g 0).2.1.docs = (if close_ok o fs d then rest else d :: rest) ∧
    (close_tab o fs g 0).1.writeOk = fs.writeOk := by
  have hget : g.docs.get? 0 = some d := by rw [hd]; rfl
  unfold close_tab
  rw [hget]
  simp only []
  cases hm : d.modified with
  | false =>
    simp [close_ok, hm, remove_tab, hd]
  | true =>
    cases hask : o.ask d with
    | cancel => simp [close_ok, hm, hask, hd]
    | discard => simp [close_ok, hm, hask, remove_tab, hd]
    | save =>
      simp only [hask]
      have hget1 : ({ g with current := 0 } : TabGroup).docs.get? 0 = some d := hget
      unfold save_current save_current_as
      rw [hget1]
      cases hp : d.file_path with
      | some p =>
        simp only []
        unfold save_file FileStore.write
        simp only [hp, Option.or]
        cases hw : fs.writeOk p with
        | true =>
          simp [close_ok, hm, hask, hp, hw, set_doc, remove_tab, hd]
        | false =>
          simp [close_ok, hm, hask, hp, hw, hd]
      | none =>
        simp only []
        cases hps : o.pickSave with
        | none => simp [close_ok, hm, hask, hp, hps, hd]
        | some p =>
          simp only []
          unfold save_file FileStore.write
          simp only [hp, Option.or]
          cases hw : fs.writeOk p with
          | true =>
            simp [close_ok, hm, hask, hp, hps, hw, set_doc, remove_tab, hd]
          | false =>
            simp [close_ok, hm, hask, hp, hps, hw, hd]

/-- The close-all loop characterized: the result flag says whether every
tab closed, and the surviving tabs are exactly the suffix from the first
editor whose close fails. -/
theorem close_allAux_spec (o : Oracle) : ∀ (fuel : Nat) (fs : FileStore) (g : TabGroup),
    g.docs.length ≤ fuel →
    (close_allAux o fuel fs g).2.2 = g.docs.all (close_ok o fs) ∧
    (close_allAux o fuel fs g).2.1.docs = g.docs.dropWhile (close_ok o fs) := by
  intro fuel
  induction fuel with
  | zero =>
    intro fs g hlen
    have hnil : g.docs = [] := List.length_eq_zero.mp (Nat.le_zero.mp hlen)
    simp [close_allAux, hnil]
  | succ fuel ih =>
    intro fs g hlen
    cases hd : g.docs with
    | nil =>
      simp [close_allAux, hd]
    | cons d rest =>
      obtain ⟨hflag, hdocs, hwok⟩ := close_tab_zero o fs g d rest hd
      rcases hct : close_tab o fs g 0 with ⟨fs', g', ok⟩
      rw [hct] at hflag hdocs hwok
      simp only [] at hflag hdocs hwok
      have hgoal : close_allAux o (fuel + 1) fs g =
          if ok then close_allAux o fuel fs' g' else (fs', g', false) := by
        simp [close_allAux, hd, hct]
      cases hok : close_ok o fs d with
      | false =>
        rw [hok] at hflag hdocs
        simp only [Bool.false_eq_true, if_neg, ite_false] at hdocs
        rw [hgoal, hflag]
        simp only [Bool.false_eq_true, ite_false]
        simp [List.dropWhile_cons, List.all_cons, hok, hdocs]
      | true =>
        rw [hok] at hflag hdocs
        simp only [ite_true, if_pos] at hdocs
        have hlen' : g'.docs.length ≤ fuel := by
          rw [hdocs]
          have hlen2 : g.docs.length ≤ fuel + 1 := hlen
          rw [hd] at hlen2
          simpa using Nat.le_of_succ_le_succ hlen2
        obtain ⟨ih1, ih2⟩ := ih fs' g' hlen'
        have hcong : close_ok o fs' = close_ok o fs :=
          funext fun ed => close_ok_writeOk_congr o fs fs' ed hwok
        rw [hgoal, hflag]
        simp only [ite_true]
        constructor
        · rw [ih1, hdocs, List.all_cons, hok, Bool.true_and, hcong]
        · rw [ih2, hdocs]
          rw [List.dropWhile_cons, hok]
          simp only [ite_true, hcong]

/-! ## Concrete fixtures used by the examples and witnesses -/

/-- A widget freshly bound to a document, cursor at the start, default
flags, with the given query and replacement text. -/
def mkWidget (t q r : String) : FindReplaceWidget :=
  { editor := some { text := t.toList, anchor := 0, pos := 0 },
    find_input := q.toList, replace_input := r.toList,
    case_sensitive := false, whole_word := false,
    last_match_position := -1, match_label := none }

/-- A file store whose reads hit OS-level errors and whose writes fail. -/
def osErrorStore : FileStore :=
  { read := fun _ => .osError, writeOk := fun _ => false }

/-- A file store whose reads raise decode errors. -/
def decodeErrorStore : FileStore :=
  { read := fun _ => .decodeError, writeOk := fun _ => false }

/-- A file store whose reads succeed with fixed contents and whose writes
succeed. -/
def okStore : FileStore :=
  { read := fun _ => .ok ("hi".toList), writeOk := fun _ => true }

/-- A confirmation prompt that always answers Cancel, with no save dialog
path. -/
def cancelOracle : Oracle := { ask := fun _ => .cancel, pickSave := none }

/-- A single modified untitled document. -/
def modifiedDoc : Editor :=
  { text := "x".toList, file_path := none, modified := true }

/-- A tab group holding only `modifiedDoc`. -/
def oneDocGroup : TabGroup := { docs := [modifiedDoc], current := 0 }

/-- A container with a single pane whose tab group has just become empty. -/
def soloContainer : SplitContainer :=
  { rootChildren := [.leaf { id := 0, group := { docs := [], current := 0 } }],
    closing := false }

/-! ## Claims -/

/-- C1: For every pane tree reachable by split/close/remove operations,
after `cleanup()` runs no Split node in the tree has 0 children or exactly
1 child: every child that is an empty Split is dropped, and every child
that is a Split with exactly one child is replaced by that child.  The tree
is the child forest of the fixed root container (`root_splitter`), which is
exactly what `_cleanup_empty_splitters` walks; the statement is proved for
every child forest, so in particular for every reachable one. -/
theorem C1_cleanup_no_degenerate_split (l : List PaneNode) :
    noDegenerateList (cleanupList l) = true :=
  noDegenerateList_cleanupList l

/-- C2 counterexample: a read that fails with a UTF-8 decode error does not
produce a failure result at all — `except (IOError, OSError)` does not
catch `UnicodeDecodeError`, so the exception escapes `load_file` (modelled
as `none`) instead of signalling an `IoError` return. -/
theorem C2_decode_error_escapes :
    load_file decodeErrorStore freshEditor "a.txt" = none := rfl

/-- C2 (amended): on success `load_file` sets the buffer text, the path and
clears the modified flag; on an OS-level failure (not found, permission) it
returns failure with the editor unchanged; a UTF-8 decode error is not
caught and escapes as an exception (raised before any mutation, so the
editor is also unchanged, but no failure result is returned). -/
theorem C2_load_file_spec (fs : FileStore) (ed : Editor) (path : String) :
    (∀ s, fs.read path = .ok s →
      load_file fs ed path =
        some ({ text := s, file_path := some path, modified := false }, true)) ∧
    (fs.read path = .osError → load_file fs ed path = some (ed, false)) ∧
    (fs.read path = .decodeError → load_file fs ed path = none) := by
  refine ⟨?_, ?_, ?_⟩ <;> intro h <;> try intro h
  all_goals simp_all [load_file]

/-- C2 witness: the three read outcomes at concrete stores. -/
theorem C2_load_file_spec_witness :
    load_file okStore freshEditor "a.txt" =
        some ({ text := "hi".toList, file_path := some "a.txt", modified := false },
          true) ∧
      load_file osErrorStore freshEditor "a.txt" = some (freshEditor, false) :=
  ⟨(C2_load_file_spec okStore freshEditor "a.txt").1 ("hi".toList) rfl,
    (C2_load_file_spec osErrorStore freshEditor "a.txt").2.1 rfl⟩

/-- C3: `replace_all` scans from the document start replacing every match,
resumes immediately after each replacement's end offset (so replacement
text is never re-matched and the pass terminates even if the replacement
contains the query — expressed as fuel irrelevance: any sufficient scan
budget gives the same result), returns the number of replacements, and on
"Hello World Hello Hello" replacing "Hello" with "Hi" returns 3 and yields
"Hi World Hi Hi". -/
theorem C3_replace_all_spec :
    ((replace_all (mkWidget "Hello World Hello Hello" "Hello" "Hi")).2 = 3 ∧
      editorText (replace_all (mkWidget "Hello World Hello Hello" "Hello" "Hi")).1 =
        some ("Hi World Hi Hi".toList)) ∧
    (∀ (q r : List Char) (cs ww : Bool) (f1 f2 : Nat) (t : List Char) (i count : Nat),
      q ≠ [] → t.length + 1 ≤ f1 + i → t.length + 1 ≤ f2 + i →
      replace_allAux q r cs ww f1 t i count = replace_allAux q r cs ww f2 t i count) ∧
    (∀ (q r : List Char) (cs ww : Bool) (fuel : Nat) (t : List Char) (i count j : Nat),
      findFrom t q cs ww i = some j →
      replace_allAux q r cs ww (fuel + 1) t i count =
        replace_allAux q r cs ww fuel (spliceAt t r j q.length) (j + r.length)
          (count + 1)) := by
  refine ⟨by decide, ?_, ?_⟩
  · intro q r cs ww f1 f2 t i count hq h1 h2
    exact replace_allAux_fuel q r cs ww hq f1 f2 t i count h1 h2
  · intro q r cs ww fuel t i count j hf
    simp [replace_allAux, hf]

/-- C3 witness: the fuel-irrelevance and resume-position conjuncts at
concrete inputs. -/
theorem C3_replace_all_spec_witness :
    replace_allAux ("a".toList) [] false false 2 ("a".toList) 0 0 =
        replace_allAux ("a".toList) [] false false 5 ("a".toList) 0 0 ∧
      replace_allAux ("a".toList) ("b".toList) false false 3 ("a".toList) 0 0 =
        replace_allAux ("a".toList) ("b".toList) false false 2
          (spliceAt ("a".toList) ("b".toList) 0 1) 1 1 :=
  ⟨C3_replace_all_spec.2.1 ("a".toList) [] false false 2 5 ("a".toList) 0 0
      (by decide) (by decide) (by decide),
    C3_replace_all_spec.2.2 ("a".toList) ("b".toList) false false 2 ("a".toList)
      0 0 0 (by decide)⟩

/-- C4: `find_next` searches forward from the cursor's selection end and
wraps to the document start when nothing is found up to the end; it reports
no match exactly when the widget is unbound, the query is empty, or the
query occurs nowhere in the document; on success it selects the found span
and records its end position.  On "Hello World Hello" with query "Hello"
from offset 0, successive calls select [0,5), then [12,17), then wrap back
to [0,5). -/
theorem C4_find_next_spec :
    (∀ w : FindReplaceWidget, w.editor = none → (find_next w).2 = false) ∧
    (∀ (w : FindReplaceWidget) (ed : EditorView), w.editor = some ed →
      ((find_next w).2 = true ↔
        w.find_input ≠ [] ∧
          ∃ i, acceptAt ed.text w.find_input w.case_sensitive w.whole_word i = true)) ∧
    (∀ (w : FindReplaceWidget) (ed : EditorView) (i : Nat), w.editor = some ed →
      w.find_input ≠ [] →
      (findFrom ed.text w.find_input w.case_sensitive w.whole_word ed.selEnd).or
          (findFrom ed.text w.find_input w.case_sensitive w.whole_word 0) = some i →
      find_next w =
        ({ w with
            editor := some { ed with anchor := i, pos := i + w.find_input.length },
            last_match_position := ((i + w.find_input.length : Nat) : Int) }, true)) ∧
    ((find_next (mkWidget "Hello World Hello" "Hello" "")).2 = true ∧
      (find_next (mkWidget "Hello World Hello" "Hello" "")).1.editor =
        some { text := "Hello World Hello".toList, anchor := 0, pos := 5 } ∧
      (find_next (find_next (mkWidget "Hello World Hello" "Hello" "")).1).2 = true ∧
      (find_next (find_next (mkWidget "Hello World Hello" "Hello" "")).1).1.editor =
        some { text := "Hello World Hello".toList, anchor := 12, pos := 17 } ∧
      (find_next (find_next (find_next (mkWidget "Hello World Hello" "Hello" "")).1).1).2 =
        true ∧
      (find_next
            (find_next (find_next (mkWidget "Hello World Hello" "Hello" "")).1).1).1.editor =
        some { text := "Hello World Hello".toList, anchor := 0, pos := 5 }) := by
  refine ⟨?_, ?_, ?_, by decide⟩
  · intro w h
    simp [find_next, h]
  · intro w ed he
    by_cases hq : w.find_input.isEmpty
    · simp [find_next, he, hq, List.isEmpty_iff.mp hq]
    · simp only [find_next, he, if_neg hq]
      cases h1 : findFrom ed.text w.find_input w.case_sensitive w.whole_word ed.selEnd with
      | some j =>
        simp only [Option.or]
        obtain ⟨_, hacc, _⟩ := findFrom_some _ _ _ _ _ _ h1
        simp [List.isEmpty_iff] at hq
        exact iff_of_true (by simp) ⟨hq, j, hacc⟩
      | none =>
        simp only [Option.or]
        cases h0 : findFrom ed.text w.find_input w.case_sensitive w.whole_word 0 with
        | some j =>
          obtain ⟨_, hacc, _⟩ := findFrom_some _ _ _ _ _ _ h0
          simp [List.isEmpty_iff] at hq
          exact iff_of_true (by simp) ⟨hq, j, hacc⟩
        | none =>
          have hnone := findFrom_zero_none_iff ed.text w.find_input
            w.case_sensitive w.whole_word |>.mp h0
          refine iff_of_false (by simp) ?_
          rintro ⟨-, i, hacc⟩
          rw [hnone i] at hacc
          exact absurd hacc (by simp)
  · intro w ed i he hq hor
    have hq' : ¬w.find_input.isEmpty := by simpa [List.isEmpty_iff] using hq
    simp [find_next, he, hq', hor]

/-- C4 witness: an unbound widget reports no match, and the general success
case applied at the example's first call. -/
theorem C4_find_next_spec_witness :
    (find_next { mkWidget "x" "a" "" with editor := none }).2 = false ∧
      find_next (mkWidget "ab" "a" "") =
        ({ mkWidget "ab" "a" "" with
            editor := some { text := "ab".toList, anchor := 0, pos := 1 },
            last_match_position := (1 : Int) }, true) :=
  ⟨C4_find_next_spec.1 _ rfl,
    C4_find_next_spec.2.2.1 (mkWidget "ab" "a" "")
      { text := "ab".toList, anchor := 0, pos := 0 } 0 rfl (by decide) (by decide)⟩

/-- C5: When a tab group's last document is closed outside a close-all
sweep (`_closing` false), `_on_all_tabs_closed` refills the group with
exactly one fresh empty document if it is the only group in the tree — so
the workspace never shows zero tabs and zero panes — and otherwise detaches
the group's pane and runs cleanup, after which the group is no longer in
the tree. -/
theorem C5_on_all_tabs_closed_spec (c : SplitContainer) (i : Nat) (g : TabGroup)
    (hc : c.closing = false) :
    (countLeavesList c.rootChildren = 1 →
      getGroupList i c.rootChildren = some g →
      g.docs = [] →
      getGroupList i (on_all_tabs_closed c i).rootChildren =
          some { docs := [freshEditor], current := 0 } ∧
        countLeavesList (on_all_tabs_closed c i).rootChildren = 1) ∧
    (countLeavesList c.rootChildren ≠ 1 →
      (on_all_tabs_closed c i).rootChildren =
          cleanupList (removeLeafList i c.rootChildren) ∧
        i ∉ leafIdsList (on_all_tabs_closed c i).rootChildren) := by
  constructor
  · intro h1 hg hempty
    simp only [on_all_tabs_closed, hc, Bool.false_eq_true, if_neg, ite_false, h1,
      ite_true]
    constructor
    · rw [getGroupList_mapLeafList, hg, Option.map_some']
      have : new_tabPure g = { docs := [freshEditor], current := 0 } := by
        simp [new_tabPure, hempty]
      rw [this]
    · rw [countLeavesList_mapLeafList, h1]
  · intro h1
    simp only [on_all_tabs_closed, hc, Bool.false_eq_true, if_neg, ite_false, h1,
      remove_tab_widget]
    refine ⟨by simp, fun hm => ?_⟩
    exact not_mem_leafIds_removeLeafList i c.rootChildren
      (mem_leafIds_cleanupList i (removeLeafList i c.rootChildren) hm)

/-- C5 witness: a sole pane whose group just became empty is refilled with
one fresh document. -/
theorem C5_on_all_tabs_closed_spec_witness :
    getGroupList 0 (on_all_tabs_closed soloContainer 0).rootChildren =
        some { docs := [freshEditor], current := 0 } ∧
      countLeavesList (on_all_tabs_closed soloContainer 0).rootChildren = 1 :=
  (C5_on_all_tabs_closed_spec soloContainer 0 { docs := [], current := 0 } rfl).1
    (by simp [soloContainer, countLeavesList, countLeaves])
    (by simp [soloContainer, getGroupList]) rfl

/-- C6: closing a modified document asks Save/Discard/Cancel; Cancel, or
Save followed by a failing save, aborts the close leaving the document list
(and hence the tab count) unchanged; Discard, or Save followed by a
successful save, removes the document. -/
theorem C6_close_tab_spec (o : Oracle) (fs : FileStore) (g : TabGroup)
    (i : Nat) (ed : Editor) (hi : g.docs.get? i = some ed)
    (hm : ed.modified = true) :
    (o.ask ed = .cancel → close_tab o fs g i = (fs, g, false)) ∧
    (o.ask ed = .save → (save_current o fs { g with current := i }).2.2 = false →
      (close_tab o fs g i).2.1.docs = g.docs ∧ (close_tab o fs g i).2.2 = false) ∧
    (o.ask ed = .discard →
      (close_tab o fs g i).2.1.docs = g.docs.eraseIdx i ∧
        (close_tab o fs g i).2.2 = true) ∧
    (o.ask ed = .save → (save_current o fs { g with current := i }).2.2 = true →
      (close_tab o fs g i).2.1.docs =
          ((save_current o fs { g with current := i }).2.1.docs).eraseIdx i ∧
        (close_tab o fs g i).2.2 = true) := by
  have hi2 : g.docs[i]? = some ed := by simpa using hi
  refine ⟨?_, ?_, ?_, ?_⟩
  · intro hask
    simp [close_tab, hi2, hm, hask]
  · intro hask hfail
    have hunch := save_current_fail o fs { g with current := i } hfail
    rcases hsc : save_current o fs { g with current := i } with ⟨fs', g2, ok⟩
    rw [hsc] at hfail hunch
    simp only [] at hfail hunch
    subst hfail
    simp [close_tab, hi2, hm, hask, hsc, hunch]
  · intro hask
    simp [close_tab, hi2, hm, hask, remove_tab]
  · intro hask hok
    rcases hsc : save_current o fs { g with current := i } with ⟨fs', g2, ok⟩
    rw [hsc] at hok
    simp only [] at hok
    subst hok
    simp [close_tab, hi2, hm, hask, hsc, remove_tab]

/-- C6 witness: cancelling the prompt on a group's only modified document
leaves the group untouched. -/
theorem C6_close_tab_spec_witness :
    close_tab cancelOracle osErrorStore oneDocGroup 0 =
      (osErrorStore, oneDocGroup, false) :=
  (C6_close_tab_spec cancelOracle osErrorStore oneDocGroup 0 modifiedDoc rfl
    rfl).1 rfl

/-- C7: `close_all_tabs` closes documents from front to back; it returns
success exactly when every per-document close succeeds, and the surviving
documents are exactly the suffix starting at the first document whose close
fails (already-closed tabs stay closed, not-yet-closed ones are intact). -/
theorem C7_close_all_tabs_spec (o : Oracle) (fs : FileStore) (g : TabGroup) :
    (close_all_tabs o fs g).2.2 = g.docs.all (close_ok o fs) ∧
    (close_all_tabs o fs g).2.1.docs = g.docs.dropWhile (close_ok o fs) :=
  close_allAux_spec o g.docs.length fs g (Nat.le_refl _)

/-- C8: with whole-word matching enabled, a candidate occurrence is
accepted exactly when the character immediately before it (if any) and the
character immediately after it (if any) are neither alphanumeric nor
underscore; in "Hello HelloWorld Hello" the whole-word query "Hello"
matches exactly at offsets 0 and 17 (spans [0,5) and [17,22)), skipping the
occurrence inside "HelloWorld". -/
theorem C8_whole_word_spec :
    (∀ (t q : List Char) (cs : Bool) (i : Nat),
      acceptAt t q cs true i = true ↔
        matchesAt t q cs i = true ∧
          (∀ c, t[i - 1]? = some c → i ≠ 0 → isWordChar c = false) ∧
          (∀ c, t[i + q.length]? = some c → isWordChar c = false)) ∧
    (∀ i, acceptAt ("Hello HelloWorld Hello".toList) ("Hello".toList) false true i =
        true ↔ (i = 0 ∨ i = 17)) := by
  constructor
  · intro t q cs i
    constructor
    · intro h
      simp only [acceptAt, Bool.and_eq_true, Bool.not_true, Bool.false_or] at h
      obtain ⟨hm, hb⟩ := h
      have hlen : i + q.length ≤ t.length := by
        have hm2 := hm
        simp only [matchesAt, Bool.and_eq_true, decide_eq_true_eq] at hm2
        exact hm2.1
      simp only [wordBoundaryAt, Bool.and_eq_true, Bool.or_eq_true,
        decide_eq_true_eq, Bool.not_eq_true'] at hb
      obtain ⟨hb1, hb2⟩ := hb
      refine ⟨hm, ?_, ?_⟩
      · intro c hc hi0
        rcases hb1 with h0 | hgd
        · exact absurd h0 hi0
        · obtain ⟨hlt, he⟩ := List.getElem?_eq_some.mp hc
          rw [List.getD_eq_getElem t ' ' hlt, he] at hgd
          exact hgd
      · intro c hc
        rcases hb2 with h0 | hgd
        · rw [List.getElem?_eq_none (by omega)] at hc
          exact absurd hc (by simp)
        · obtain ⟨hlt, he⟩ := List.getElem?_eq_some.mp hc
          rw [List.getD_eq_getElem t ' ' hlt, he] at hgd
          exact hgd
    · rintro ⟨hm, h1, h2⟩
      have hlen : i + q.length ≤ t.length := by
        have hm2 := hm
        simp only [matchesAt, Bool.and_eq_true, decide_eq_true_eq] at hm2
        exact hm2.1
      simp only [acceptAt, Bool.and_eq_true, Bool.not_true, Bool.false_or]
      refine ⟨hm, ?_⟩
      simp only [wordBoundaryAt, Bool.and_eq_true, Bool.or_eq_true,
        decide_eq_true_eq, Bool.not_eq_true']
      constructor
      · by_cases h0 : i = 0
        · exact Or.inl h0
        · right
          have hi1 : i - 1 < t.length := by omega
          rw [List.getD_eq_getElem t ' ' hi1]
          exact h1 (t.get ⟨i - 1, hi1⟩) (List.getElem?_eq_getElem hi1) h0
      · by_cases h0 : i + q.length = t.length
        · exact Or.inl h0
        · right
          have hi2 : i + q.length < t.length := by omega
          rw [List.getD_eq_getElem t ' ' hi2]
          exact h2 (t.get ⟨i + q.length, hi2⟩) (List.getElem?_eq_getElem hi2)
  · intro i
    by_cases hi : i < 18
    · exact (by decide :
        ∀ j, j < 18 →
          (acceptAt ("Hello HelloWorld Hello".toList) ("Hello".toList) false true j =
            true ↔ (j = 0 ∨ j = 17))) i hi
    · have hT : ("Hello HelloWorld Hello".toList).length = 22 := by decide
      have hQ : ("Hello".toList).length = 5 := by decide
      have hoob : acceptAt ("Hello HelloWorld Hello".toList) ("Hello".toList)
          false true i = false :=
        acceptAt_oob _ _ _ _ _ (by rw [hT, hQ]; omega)
      rw [hoob]
      constructor
      · intro h
        exact absurd h (by simp)
      · intro h
        omega

/-- C8 witness: the acceptance rule applied at the example's offsets. -/
theorem C8_whole_word_spec_witness :
    acceptAt ("Hello HelloWorld Hello".toList) ("Hello".toList) false true 17 =
        true ∧
      matchesAt ("Hello HelloWorld Hello".toList) ("Hello".toList) false 0 = true ∧
      acceptAt ("Hello HelloWorld Hello".toList) ("Hello".toList) false true 6 =
        false := by
  refine ⟨(C8_whole_word_spec.2 17).mpr (Or.inr rfl), ?_, ?_⟩
  · exact ((C8_whole_word_spec.1 ("Hello HelloWorld Hello".toList)
      ("Hello".toList) false 0).mp ((C8_whole_word_spec.2 0).mpr (Or.inl rfl))).1
  · cases hv : acceptAt ("Hello HelloWorld Hello".toList) ("Hello".toList)
        false true 6 with
    | false => rfl
    | true => exact absurd ((C8_whole_word_spec.2 6).mp hv) (by decide)

/-- C9: saving to a path on which the write succeeds and then loading that
path into a fresh document yields the saved text with the modified flag
clear. -/
theorem C9_save_load_roundtrip (fs : FileStore) (ed : Editor) (path : String)
    (hw : fs.writeOk path = true) :
    (save_file fs ed (some path)).2.2 = true ∧
    load_file (save_file fs ed (some path)).1 freshEditor path =
      some ({ text := ed.text, file_path := some path, modified := false }, true) := by
  simp [save_file, FileStore.write, hw, load_file, Option.or]

/-- C9 witness: the round trip through a concrete writable store. -/
theorem C9_save_load_roundtrip_witness :
    (save_file { read := fun _ => .osError, writeOk := fun _ => true }
          modifiedDoc (some "a.txt")).2.2 = true ∧
      load_file
          (save_file { read := fun _ => .osError, writeOk := fun _ => true }
            modifiedDoc (some "a.txt")).1 freshEditor "a.txt" =
        some ({ text := "x".toList, file_path := some "a.txt", modified := false },
          true) :=
  C9_save_load_roundtrip
    { read := fun _ => .osError, writeOk := fun _ => true } modifiedDoc "a.txt" rfl

/-- C10: the pure search operations — `find_next`, `find_previous` and the
match-count refresh — never change the document text: they only move the
cursor/selection and update the recorded match data. -/
theorem C10_search_frame (w : FindReplaceWidget) :
    editorText (find_next w).1 = editorText w ∧
    editorText (find_previous w).1 = editorText w ∧
    editorText (update_match_count w) = editorText w := by
  refine ⟨?_, ?_, ?_⟩
  · cases he : w.editor with
    | none => simp [find_next, he]
    | some ed =>
      by_cases hq : w.find_input.isEmpty
      · simp [find_next, he, hq]
      · simp only [find_next, he, if_neg hq]
        cases hor : (findFrom ed.text w.find_input w.case_sensitive w.whole_word
            ed.selEnd).or
            (findFrom ed.text w.find_input w.case_sensitive w.whole_word 0) with
        | none => simp [editorText]
        | some i => simp [editorText, he]
  · cases he : w.editor with
    | none => simp [find_previous, he]
    | some ed =>
      by_cases hq : w.find_input.isEmpty
      · simp [find_previous, he, hq]
      · simp only [find_previous, he, if_neg hq]
        cases hor : (findBack ed.text w.find_input w.case_sensitive w.whole_word
            ed.selStart).or
            (findBack ed.text w.find_input w.case_sensitive w.whole_word
              ed.text.length) with
        | none => simp [editorText]
        | some i => simp [editorText, he]
  · cases he : w.editor with
    | none => simp [update_match_count, he, editorText]
    | some ed =>
      by_cases hq : w.find_input.isEmpty
      · simp [update_match_count, he, hq, editorText]
      · simp [update_match_count, he, hq, editorText]

end TextEdit
